import Mathlib

/-!
Shallow embedding of the resilient RPC execution layer of `Web3Python`
(`IceCreamSwapWeb3/BatchRetryMiddleware.py` and `IceCreamSwapWeb3/EthAdvanced.py`).

Conventions of the embedding:
* Python exceptions are a small inductive `PyErr`; fallible code returns
  `Except`-valued results paired with the (explicitly threaded) state of the
  external RPC endpoint, so that a stateful endpoint can answer differently
  on successive calls.
* Unbounded `while True` loops and unbounded recursion are given a `fuel`
  parameter; running out of fuel is the distinguished outcome
  `ExecErr.outOfFuel`, which is never confused with a Python exception
  (fuel exhaustion is a modelling artifact, Python exceptions are program
  behaviour).
* `time.sleep` has no semantic effect; where a claim is about the sleep
  schedule, the retry loop additionally returns the list of slept durations.
-/

/-- Classification of the Python exceptions that the modelled code can raise
or observe.  `contractLogic` stands for `web3.exceptions.ContractLogicError`;
`transient` stands for every other exception coming out of the transport. -/
inductive PyErr : Type where
  | contractLogic
  | transient
  | assertionError
  | keyError
  | valueError
  | indexError
deriving DecidableEq

/-- Outcome classification for a modelled computation: either a Python
exception propagates, or the modelling fuel ran out. -/
inductive ExecErr : Type where
  | py (e : PyErr)
  | outOfFuel
deriving DecidableEq

instance {ε α : Type} [DecidableEq ε] [DecidableEq α] : DecidableEq (Except ε α) := fun x y =>
  match x, y with
  | .ok a, .ok b =>
    if h : a = b then .isTrue (by rw [h]) else .isFalse (by intro hc; cases hc; exact h rfl)
  | .error a, .error b =>
    if h : a = b then .isTrue (by rw [h]) else .isFalse (by intro hc; cases hc; exact h rfl)
  | .ok _, .error _ => .isFalse (by intro hc; cases hc)
  | .error _, .ok _ => .isFalse (by intro hc; cases hc)

/-- A JSON-RPC response object, modelled as its two relevant keys.
`error = some v` means the key `"error"` is present (with payload `v`);
`result = none` means the key `"result"` is absent, `result = some none`
means the key is present with value `None`, and `result = some (some v)`
means it is present with a non-null value `v`. -/
structure RpcResponse : Type where
  error : Option Nat
  result : Option (Option Nat)
deriving DecidableEq

/-- `BatchRetryMiddleware.py`, line 46: the failure test
`"error" in response_single or response_single["result"] is None`.
Python's `or` short-circuits, and the subscript `response_single["result"]`
raises `KeyError` when the key is absent; `.error ()` models that raise. -/
def is_failed (resp : RpcResponse) : Except Unit Bool :=
  if resp.error.isSome then .ok true
  else
    match resp.result with
    | none => .error ()
    | some none => .ok true
    | some (some _) => .ok false

/-- The external RPC endpoint collaborator, as used by the middleware:
`make_batch_request` performs one batched call, `make_request` one single
call.  Both advance the endpoint state `σ` whether they succeed or raise,
so an endpoint that fails once and then recovers is expressible. -/
structure Env (σ α : Type) : Type where
  make_batch_request : σ → List α → Except PyErr (List RpcResponse) × σ
  make_request : σ → α → Except PyErr RpcResponse × σ

/-- `EthAdvanced.py`, lines 21-26: the wait duration computed from the
`retries` counter inside `exponential_retry` (0, then 2^(retries-1), capped
at 30 once `retries` reaches 6). -/
def wait_for (retries : Nat) : Nat :=
  if retries = 0 then 0
  else if retries < 6 then 2 ^ (retries - 1)
  else 30

/-- `EthAdvanced.py`, lines 14-30: the `while True` retry loop of
`exponential_retry` with `no_retry=False`.  A `ContractLogicError` is
re-raised at once; any other exception sleeps `wait_for retries` seconds and
retries.  The third component of the value is the list of slept durations. -/
def retry_loop {σ α : Type} (env : Env σ α) :
    Nat → Nat → σ → α → (Except ExecErr RpcResponse × σ) × List Nat
  | 0, _, s, _ => ((.error .outOfFuel, s), [])
  | fuel + 1, retries, s, req =>
    match env.make_request s req with
    | (.ok r, s₁) => ((.ok r, s₁), [])
    | (.error .contractLogic, s₁) => ((.error (.py .contractLogic), s₁), [])
    | (.error _, s₁) =>
      match retry_loop env fuel (retries + 1) s₁ req with
      | (out, ws) => (out, wait_for retries :: ws)

/-- `EthAdvanced.py`, lines 8-32: `exponential_retry` applied to
`make_request`.  With `no_retry=True` the call is made exactly once and any
exception propagates uninterpreted (lines 11-12); otherwise the retry loop
runs with `retries = 0`. -/
def exponential_retry {σ α : Type} (env : Env σ α) (no_retry : Bool) (fuel : Nat) (s : σ)
    (req : α) : (Except ExecErr RpcResponse × σ) × List Nat :=
  if no_retry then
    match env.make_request s req with
    | (.ok r, s₁) => ((.ok r, s₁), [])
    | (.error e, s₁) => ((.error (.py e), s₁), [])
  else retry_loop env fuel 0 s req

/-- `BatchRetryMiddleware.py`, lines 27-34: the list comprehension issuing
one `exponential_retry`-wrapped individual request per entry of the batch.
An exception from any single call aborts the comprehension and propagates. -/
def individual_requests {σ α : Type} (env : Env σ α) (no_retry : Bool) (fuel : Nat) :
    σ → List α → Except ExecErr (List RpcResponse) × σ
  | s, [] => (.ok [], s)
  | s, req :: rest =>
    match (exponential_retry env no_retry fuel s req).1 with
    | (.error e, s₁) => (.error e, s₁)
    | (.ok r, s₁) =>
      match individual_requests env no_retry fuel s₁ rest with
      | (.error e, s₂) => (.error e, s₂)
      | (.ok rs, s₂) => (.ok (r :: rs), s₂)

/-- `BatchRetryMiddleware.py`, lines 43-48: the scan over
`zip(requests_info, response)` collecting the failed requests
(`requests_retry`, third accumulator) and the pairs
`(original index, index in requests_retry)` (`request_indexes`, second
accumulator).  A missing `"result"` key makes `is_failed` raise, which
propagates (`.error ()`). -/
def find_failed {α : Type} :
    Nat → List (Nat × Nat) → List α → List (α × RpcResponse) →
      Except Unit (List (Nat × Nat) × List α)
  | _, idxs, rr, [] => .ok (idxs, rr)
  | i, idxs, rr, (req, resp) :: rest =>
    match is_failed resp with
    | .error e => .error e
    | .ok true => find_failed (i + 1) (idxs ++ [(i, rr.length)]) (rr ++ [req]) rest
    | .ok false => find_failed (i + 1) idxs rr rest

/-- `BatchRetryMiddleware.py`, lines 57-58: the write-back loop
`response[old_idx] = response_new[new_idx]`.  Python evaluates the
right-hand subscript first; an out-of-range index on either side raises
`IndexError`, modelled by `none`. -/
def splice (respNew : List RpcResponse) :
    List (Nat × Nat) → List RpcResponse → Option (List RpcResponse)
  | [], resp => some resp
  | (oldI, newI) :: rest, resp =>
    match respNew[newI]? with
    | none => none
    | some r => if oldI < resp.length then splice respNew rest (resp.set oldI r) else none

/-- `BatchRetryMiddleware.py`, lines 19-22: the chunking loop
`for start in range(0, len(requests_info), rpc_batch_max_size)`, which
recursively feeds consecutive slices of size `b + 1` to the middleware
(`rec`) and concatenates the responses.  Exceptions from the recursive
calls propagate (the loop is not inside the `try`). -/
def run_chunks {σ α : Type} (rec : σ → List α → Except ExecErr (List RpcResponse) × σ)
    (b : Nat) : Nat → σ → List α → Except ExecErr (List RpcResponse) × σ
  | 0, s, _ => (.error .outOfFuel, s)
  | _ + 1, s, [] => (.ok [], s)
  | fuel + 1, s, req :: rest =>
    match rec s ((req :: rest).take (b + 1)) with
    | (.error e, s₁) => (.error e, s₁)
    | (.ok r, s₁) =>
      match run_chunks rec b fuel s₁ ((req :: rest).drop (b + 1)) with
      | (.error e, s₂) => (.error e, s₂)
      | (.ok rs, s₂) => (.ok (r ++ rs), s₂)

/-- `BatchRetryMiddleware.py`, lines 63-64: the bisection fallback
`middleware(requests_info[:middle]) + middleware(requests_info[middle:])`
with `middle = len(requests_info) // 2`; the left half runs first, and
exceptions from either recursive call propagate. -/
def bisect {σ α : Type} (rec : σ → List α → Except ExecErr (List RpcResponse) × σ)
    (s : σ) (reqs : List α) : Except ExecErr (List RpcResponse) × σ :=
  let middle := reqs.length / 2
  match rec s (reqs.take middle) with
  | (.error e, s₁) => (.error e, s₁)
  | (.ok r₁, s₁) =>
    match rec s₁ (reqs.drop middle) with
    | (.error e, s₂) => (.error e, s₂)
    | (.ok r₂, s₂) => (.ok (r₁ ++ r₂), s₂)

/-- Lift of the batched call (`BatchRetryMiddleware.py`, line 36) into the
middleware's outcome type: a Python exception from the endpoint becomes a
catchable `ExecErr.py`. -/
def batch_attempt {σ α : Type} (env : Env σ α) (s : σ) (reqs : List α) :
    Except ExecErr (List RpcResponse) × σ :=
  match env.make_batch_request s reqs with
  | (.ok r, s₁) => (.ok r, s₁)
  | (.error e, s₁) => (.error (.py e), s₁)

/-- `BatchRetryMiddleware.py`, lines 13-64: the recursive batch middleware.
Control flow, in source order: empty batch returns `[]` (lines 14-16);
oversized batch is chunked (lines 18-22), where `rpc_batch_max_size = 0`
makes `range(0, n, 0)` raise `ValueError`; the `try` block (lines 24-36)
issues either individual retried requests (`rpc_batch_max_size == 0` or a
single request) or one batched call; an exception caught at line 37 runs
`assert len(requests_info) > 1` — raising `AssertionError` for a size-1
batch — and otherwise falls through to bisection; a length-matching
response is scanned for failed entries which are recursively retried and
spliced back (lines 41-60); a length mismatch falls through to bisection
(lines 61-64).  `maxB` is `self._w3.rpc_batch_max_size` and `should_retry`
is `self._w3.should_retry` (individual calls pass `no_retry = not
should_retry`, line 31). -/
def middleware {σ α : Type} (maxB : Nat) (should_retry : Bool) (env : Env σ α) :
    Nat → σ → List α → Except ExecErr (List RpcResponse) × σ
  | 0, s, _ => (.error .outOfFuel, s)
  | fuel + 1, s, reqs =>
    if reqs.length = 0 then (.ok [], s)
    else if maxB < reqs.length then
      match maxB with
      | 0 => (.error (.py .valueError), s)
      | Nat.succ b => run_chunks (middleware maxB should_retry env fuel) b fuel s reqs
    else
      match
        (if maxB = 0 ∨ reqs.length = 1 then individual_requests env (!should_retry) fuel s reqs
         else batch_attempt env s reqs) with
      | (.error .outOfFuel, s₁) => (.error .outOfFuel, s₁)
      | (.error (.py _), s₁) =>
        if 1 < reqs.length then bisect (middleware maxB should_retry env fuel) s₁ reqs
        else (.error (.py .assertionError), s₁)
      | (.ok resps, s₁) =>
        if resps.length = reqs.length then
          match find_failed 0 [] [] (reqs.zip resps) with
          | .error _ => (.error (.py .keyError), s₁)
          | .ok (idxs, rr) =>
            if rr.length = 0 then (.ok resps, s₁)
            else
              match middleware maxB should_retry env fuel s₁ rr with
              | (.error e, s₂) => (.error e, s₂)
              | (.ok respNew, s₂) =>
                match splice respNew idxs resps with
                | none => (.error (.py .indexError), s₂)
                | some merged => (.ok merged, s₂)
        else bisect (middleware maxB should_retry env fuel) s₁ reqs

/-- `EthAdvanced.py`, lines 53-67: `FILTER_RANGES_TO_TRY`, the candidate
filter ranges.  In the source the literal list is passed through
`sorted(…, reverse=True)`; the literal is already in descending order, so
the class attribute is this list. -/
def FILTER_RANGES_TO_TRY : List Nat :=
  [10000, 5000, 2000, 1000, 500, 200, 100, 50, 20, 10, 5, 2, 1]

/-- `EthAdvanced.py`, lines 149-164: the candidate loop of
`_find_max_filter_range`.  For each candidate `r` the canary query fetches
logs for the zero address over the block range
`[current_block - 5 - r + 1, current_block - 5]`; inside the same `try`,
`assert result == []` must also pass before `r` is returned, and any
exception — a rejected query or the failed assertion — is swallowed by
`except Exception: pass`, moving on to the next candidate.  An exhausted
list raises `ValueError` (line 164).  `get_logs_raw` models
`self._get_logs` with the address filter fixed. -/
def find_max_filter_range_aux {L : Type} (get_logs_raw : Int → Int → Except PyErr (List L))
    (current_block : Int) : List Nat → Except PyErr Nat
  | [] => .error .valueError
  | r :: rest =>
    match get_logs_raw (current_block - 5 - (r : Int) + 1) (current_block - 5) with
    | .ok [] => .ok r
    | .ok (_ :: _) => find_max_filter_range_aux get_logs_raw current_block rest
    | .error _ => find_max_filter_range_aux get_logs_raw current_block rest

/-- `EthAdvanced.py`, lines 149-164: `_find_max_filter_range`, running the
candidate loop over `FILTER_RANGES_TO_TRY`. -/
def find_max_filter_range {L : Type} (get_logs_raw : Int → Int → Except PyErr (List L))
    (current_block : Int) : Except PyErr Nat :=
  find_max_filter_range_aux get_logs_raw current_block FILTER_RANGES_TO_TRY

/-- The external endpoint as seen by `EthAdvanced.get_logs`:
`get_logs_raw s fromBlock toBlock` models `self._get_logs(filter_params)`
on an inclusive block range, threading the endpoint state. -/
structure LogEnv (σ L : Type) : Type where
  get_logs_raw : σ → Int → Int → Except PyErr (List L) × σ

/-- `EthAdvanced.py`, line 144: the single-block
`exponential_retry(func_name="get_logs")(self._get_logs)` call with default
`no_retry=False`: retried until success, except that `ContractLogicError`
re-raises immediately. -/
def log_retry_loop {σ L : Type} (env : LogEnv σ L) :
    Nat → σ → Int → Int → Except ExecErr (List L) × σ
  | 0, s, _, _ => (.error .outOfFuel, s)
  | fuel + 1, s, f, t =>
    match env.get_logs_raw s f t with
    | (.ok r, s₁) => (.ok r, s₁)
    | (.error .contractLogic, s₁) => (.error (.py .contractLogic), s₁)
    | (.error _, s₁) => log_retry_loop env fuel s₁ f t

/-- `EthAdvanced.py`, lines 108-115: the pre-splitting loop
`for filter_start in range(from_block, to_block + 1, filter_block_range)`:
each iteration queries `[filter_start, min(filter_start + maxR - 1,
to_block)]` through the recursive `get_logs` (`rec`) and appends the
results in order. -/
def split_loop {σ L : Type} (rec : σ → Int → Int → Except ExecErr (List L) × σ)
    (maxR : Nat) : Nat → σ → Int → Int → Except ExecErr (List L) × σ
  | 0, s, _, _ => (.error .outOfFuel, s)
  | fuel + 1, s, start, toB =>
    if start ≤ toB then
      match rec s start (min (start + (maxR : Int) - 1) toB) with
      | (.error e, s₁) => (.error e, s₁)
      | (.ok r, s₁) =>
        match split_loop rec maxR fuel s₁ (start + (maxR : Int)) toB with
        | (.error e, s₂) => (.error e, s₂)
        | (.ok rs, s₂) => (.ok (r ++ rs), s₂)
    else (.ok [], s)

/-- `EthAdvanced.py`, lines 88-147: `EthAdvanced.get_logs` on an already
numeric inclusive block range (the symbolic-tag resolution of lines 90-95
and the progress bar are outside this embedding).  In source order: a range
larger than `filter_block_range` (`maxR`) is pre-split (lines 106-115,
where `maxR = 0` would make `range(…, 0)` raise `ValueError`); otherwise
the range is queried directly (line 119); on failure, with retries disabled
and a single block the exception propagates (lines 120-123), a multi-block
range is bisected at `(from + to) // 2` — Python floor division — (lines
129-140), and a single block is retried until success (lines 142-147),
with the `assert` of line 143 raising when its condition fails. -/
def get_logs {σ L : Type} (env : LogEnv σ L) (maxR : Nat) (should_retry : Bool) :
    Nat → σ → Int → Int → Except ExecErr (List L) × σ
  | 0, s, _, _ => (.error .outOfFuel, s)
  | fuel + 1, s, fromB, toB =>
    let num_blocks := toB - fromB + 1
    if num_blocks > (maxR : Int) then
      if maxR = 0 then (.error (.py .valueError), s)
      else split_loop (get_logs env maxR should_retry fuel) maxR fuel s fromB toB
    else
      match env.get_logs_raw s fromB toB with
      | (.ok events, s₁) => (.ok events, s₁)
      | (.error e, s₁) =>
        if should_retry = false ∧ num_blocks = 1 then (.error (.py e), s₁)
        else if num_blocks > 1 then
          let mid := Int.fdiv (fromB + toB) 2
          match get_logs env maxR should_retry fuel s₁ fromB mid with
          | (.error e₁, s₂) => (.error e₁, s₂)
          | (.ok r₁, s₂) =>
            match get_logs env maxR should_retry fuel s₂ (mid + 1) toB with
            | (.error e₂, s₃) => (.error e₂, s₃)
            | (.ok r₂, s₃) => (.ok (r₁ ++ r₂), s₃)
        else
          if fromB = toB ∧ num_blocks = 1 then log_retry_loop env fuel s₁ fromB toB
          else (.error (.py .assertionError), s₁)

/-- A canonical successful response (present non-null result, no error). -/
def ok_response : RpcResponse := ⟨none, some (some 0)⟩

/-- An endpoint whose every call raises a transient exception. -/
def env_fail : Env Unit Nat :=
  ⟨fun s _ => (.error .transient, s), fun s _ => (.error .transient, s)⟩

/-- An endpoint (state = number of calls made so far) whose single-request
call raises a transient exception on the first `k` calls and succeeds from
then on. -/
def transient_env (k : Nat) : Env Nat Nat :=
  ⟨fun n _ => (.error .transient, n + 1),
   fun n _ => if n < k then (.error .transient, n + 1) else (.ok ok_response, n + 1)⟩

/-- An endpoint whose single-request call always raises `ContractLogicError`. -/
def env_logic_error : Env Unit Nat :=
  ⟨fun s _ => (.error .contractLogic, s), fun s _ => (.error .contractLogic, s)⟩

/-- An endpoint whose batched call answers with a first response that has
neither an `"error"` nor a `"result"` key. -/
def env_missing_result : Env Unit Nat :=
  ⟨fun s _ => (.ok [⟨none, none⟩, ⟨none, some (some 1)⟩], s),
   fun s _ => (.error .transient, s)⟩

/-- Structural (non-accumulator) version of `find_failed`, used to reason
about it: returns the same `request_indexes` and `requests_retry` lists,
built by consing, with `i` the next original index and `c` the next retry
index. -/
def collect_failed {α : Type} :
    Nat → Nat → List (α × RpcResponse) → Except Unit (List (Nat × Nat) × List α)
  | _, _, [] => .ok ([], [])
  | i, c, (req, resp) :: rest =>
    match is_failed resp with
    | .error e => .error e
    | .ok true =>
      match collect_failed (i + 1) (c + 1) rest with
      | .error e => .error e
      | .ok (is, rs) => .ok ((i, c) :: is, req :: rs)
    | .ok false => collect_failed (i + 1) c rest

/-- The response the echo endpoint gives to request `q`. -/
def echo_response (q : Nat) : RpcResponse := ⟨none, some (some q)⟩

/-- A well-behaved endpoint answering every request `q` (batched or not)
with `echo_response q`. -/
def env_echo : Env Unit Nat :=
  ⟨fun s reqs => (.ok (reqs.map echo_response), s),
   fun s q => (.ok (echo_response q), s)⟩

/-- An endpoint (state = number of batched calls made) whose first batched
call fails exactly the first entry of the batch and whose later calls, and
all single calls, succeed with echo responses. -/
def env_retry_once : Env Nat Nat :=
  ⟨fun n reqs =>
    if n = 0 then (.ok [⟨some 1, none⟩, echo_response 7], 1)
    else (.ok (reqs.map echo_response), n + 1),
   fun n q => (.ok (echo_response q), n + 1)⟩

/-- Whether the canary query of `_find_max_filter_range` at candidate `r`
succeeds with an empty result (so that `assert result == []` passes). -/
def canary_ok {L : Type} (get_logs_raw : Int → Int → Except PyErr (List L))
    (current_block : Int) (r : Nat) : Bool :=
  match get_logs_raw (current_block - 5 - (r : Int) + 1) (current_block - 5) with
  | .ok [] => true
  | .ok (_ :: _) => false
  | .error _ => false

/-- A log endpoint that rejects every query whose inclusive range size
exceeds `bound` and answers every other query with no logs. -/
def reject_above (bound : Int) : Int → Int → Except PyErr (List Nat) :=
  fun f t => if t - f + 1 > bound then .error .transient else .ok []

/-- A log endpoint for the C10 witness: the canary for range size 10000
succeeds with one (unexpected) log, the one for range size 5000 succeeds
empty, everything else is rejected. -/
def env_calib : Int → Int → Except PyErr (List Nat) :=
  fun f t =>
    if t - f + 1 = 10000 then .ok [7]
    else if t - f + 1 = 5000 then .ok []
    else .error .transient

/-- Written from the spec's words, for comparison with the code's
pre-splitting loop: the partition of `[fromB, toB]` into consecutive
sub-ranges of size `maxR`, the last possibly shorter.  The first argument
is a structural-recursion counter (any value at least the number of blocks
gives the full partition). -/
def spec_sub_ranges (maxR : Nat) : Nat → Int → Int → List (Int × Int)
  | 0, _, _ => []
  | n + 1, fromB, toB =>
    if fromB ≤ toB then
      (fromB, min (fromB + (maxR : Int) - 1) toB) :: spec_sub_ranges maxR n (fromB + (maxR : Int)) toB
    else []

/-- The spec's partition of `[fromB, toB]` into consecutive sub-ranges of
size `maxR` (last possibly shorter), with the counter instantiated to the
number of blocks. -/
def spec_sub_ranges_of (maxR : Nat) (fromB toB : Int) : List (Int × Int) :=
  spec_sub_ranges maxR (toB + 1 - fromB).toNat fromB toB

/-- A log endpoint that answers every raw query `[f, t]` with `ans f t` and
records the queried ranges, in order, in its state. -/
def count_env {L : Type} (ans : Int → Int → List L) : LogEnv (List (Int × Int)) L :=
  ⟨fun s f t => (.ok (ans f t), s ++ [(f, t)])⟩

lemma retry_loop_transient_env (k : Nat) :
    ∀ fuel retries n req, k - n < fuel → n ≤ k →
      retry_loop (transient_env k) fuel retries n req =
        ((.ok ok_response, k + 1), (List.range' retries (k - n)).map wait_for) := by
  intro fuel
  induction fuel with
  | zero => intro retries n req h _; omega
  | succ fuel ih =>
    intro retries n req h hnk
    by_cases hlt : n < k
    · have hk : (transient_env k).make_request n req = (.error .transient, n + 1) := by
        simp [transient_env, hlt]
      have hrec := ih (retries + 1) (n + 1) req (by omega) (by omega)
      have hkn : k - n = (k - (n + 1)) + 1 := by omega
      simp only [retry_loop, hk, hrec, hkn, List.range'_succ, List.map_cons]
    · have hnk2 : n = k := by omega
      subst hnk2
      have hk : (transient_env n).make_request n req = (.ok ok_response, n + 1) := by
        simp [transient_env, hlt]
      simp [retry_loop, hk, Nat.sub_self]

/-- C6: the retry wrapper's wait schedule: attempt 0 waits 0 s, attempts 1-5
wait 2^(attempt-1) seconds (1, 2, 4, 8, 16), every attempt from 6 on waits
exactly 30 s; and a run of the retry loop that sees `k` transient failures
before succeeding sleeps exactly `wait_for 0, …, wait_for (k-1)`. -/
theorem exponential_retry_backoff_schedule :
    wait_for 0 = 0 ∧
    (∀ a, 1 ≤ a → a ≤ 5 → wait_for a = 2 ^ (a - 1)) ∧
    [wait_for 1, wait_for 2, wait_for 3, wait_for 4, wait_for 5] = [1, 2, 4, 8, 16] ∧
    (∀ a, 6 ≤ a → wait_for a = 30) ∧
    (∀ k fuel req, k < fuel →
      retry_loop (transient_env k) fuel 0 0 req =
        ((.ok ok_response, k + 1), (List.range k).map wait_for)) := by
  refine ⟨rfl, ?_, by decide, ?_, ?_⟩
  · intro a h1 h5
    unfold wait_for
    rw [if_neg (by omega), if_pos (by omega)]
  · intro a h6
    unfold wait_for
    rw [if_neg (by omega), if_neg (by omega)]
  · intro k fuel req h
    rw [List.range_eq_range']
    exact retry_loop_transient_env k fuel 0 0 req (by omega) (by omega)

/-- Witness for C6 at concrete attempt counts and a concrete 2-failure run. -/
theorem exponential_retry_backoff_schedule_witness :
    wait_for 3 = 2 ^ 2 ∧ wait_for 7 = 30 ∧
      retry_loop (transient_env 2) 5 0 0 0 =
        ((.ok ok_response, 3), (List.range 2).map wait_for) :=
  ⟨exponential_retry_backoff_schedule.2.1 3 (by decide) (by decide),
   exponential_retry_backoff_schedule.2.2.2.1 7 (by decide),
   exponential_retry_backoff_schedule.2.2.2.2 2 5 0 (by decide)⟩

/-- C7: with `no_retry=True` the wrapped operation is invoked exactly once —
the returned endpoint state is the state after that single call — and any
failure propagates uninterpreted with no sleep; a `ContractLogicError` under
retries is re-raised immediately, with no retry attempt and no sleep,
whatever the current attempt count. -/
theorem exponential_retry_no_retry_and_logic_error :
    (∀ (σ α : Type) (env : Env σ α) (fuel : Nat) (s : σ) (req : α) e s₁,
      env.make_request s req = (.error e, s₁) →
      exponential_retry env true fuel s req = ((.error (.py e), s₁), [])) ∧
    (∀ (σ α : Type) (env : Env σ α) (fuel : Nat) (s : σ) (req : α) r s₁,
      env.make_request s req = (.ok r, s₁) →
      exponential_retry env true fuel s req = ((.ok r, s₁), [])) ∧
    (∀ (σ α : Type) (env : Env σ α) (fuel retries : Nat) (s : σ) (req : α) s₁,
      env.make_request s req = (.error .contractLogic, s₁) →
      retry_loop env (fuel + 1) retries s req = ((.error (.py .contractLogic), s₁), [])) ∧
    (∀ (σ α : Type) (env : Env σ α) (fuel : Nat) (s : σ) (req : α) s₁,
      env.make_request s req = (.error .contractLogic, s₁) →
      exponential_retry env false (fuel + 1) s req = ((.error (.py .contractLogic), s₁), [])) := by
  refine ⟨?_, ?_, ?_, ?_⟩
  · intro σ α env fuel s req e s₁ h
    simp [exponential_retry, h]
  · intro σ α env fuel s req r s₁ h
    simp [exponential_retry, h]
  · intro σ α env fuel retries s req s₁ h
    simp [retry_loop, h]
  · intro σ α env fuel s req s₁ h
    simp [exponential_retry, retry_loop, h]

/-- Witness for C7 on concrete endpoints. -/
theorem exponential_retry_no_retry_and_logic_error_witness :
    exponential_retry env_fail true 4 () 42 = ((.error (.py .transient), ()), []) ∧
      exponential_retry env_logic_error false 4 () 42 =
        ((.error (.py .contractLogic), ()), []) :=
  ⟨exponential_retry_no_retry_and_logic_error.1 Unit Nat env_fail 4 () 42 .transient () rfl,
   exponential_retry_no_retry_and_logic_error.2.2.2 Unit Nat env_logic_error 3 () 42 () rfl⟩

/-- C2 (code bug): with `rpc_batch_max_size = 0` any non-empty batch takes
the chunking branch — `len(requests_info) > 0` holds — and
`range(0, len(requests_info), 0)` raises `ValueError`; the individual-
request branch guarded by `rpc_batch_max_size == 0` on line 25 is
unreachable for non-empty input. -/
theorem max_batch_size_zero_raises_value_error :
    middleware 0 true env_fail 3 () [42] = (.error (.py .valueError), ()) ∧
      middleware 0 false env_fail 3 () [7, 8, 9] = (.error (.py .valueError), ()) :=
  ⟨rfl, rfl⟩

/-- C3 (code bug): a size-1 batch whose individual request raises (here:
retries disabled and a transient failure) is caught by the whole-batch
`except` handler, whose `assert len(requests_info) > 1` fails, so the
middleware surfaces `AssertionError` instead of the original exception. -/
theorem single_request_failure_masked_as_assertion :
    middleware 5 false env_fail 3 () [42] = (.error (.py .assertionError), ()) ∧
      (Except.error (.py .assertionError) : Except ExecErr (List RpcResponse)) ≠
        .error (.py .transient) :=
  ⟨rfl, by decide⟩

/-- C8 counterexample: a response whose `"result"` key is absent (and which
carries no `"error"`) is not classified as failed — the classifier raises
`KeyError`, and the executor itself fails with that `KeyError` instead of
retrying the entry. -/
theorem missing_result_key_raises_key_error :
    is_failed ⟨none, none⟩ = .error () ∧
      middleware 2 true env_missing_result 3 () [1, 2] = (.error (.py .keyError), ()) :=
  ⟨rfl, rfl⟩

/-- C8 (amended): a response counts as failed exactly when it carries an
`"error"` key, or carries no `"error"` and a `"result"` key whose value is
null; it counts as successful exactly when it carries no `"error"` and a
non-null `"result"`; and when it carries neither key the classification
raises `KeyError` (which the executor propagates). -/
theorem failed_response_classification :
    ∀ resp : RpcResponse,
      (is_failed resp = .ok true ↔
        resp.error.isSome ∨ (resp.error = none ∧ resp.result = some none)) ∧
      (is_failed resp = .ok false ↔
        resp.error = none ∧ ∃ v, resp.result = some (some v)) ∧
      (is_failed resp = .error () ↔ resp.error = none ∧ resp.result = none) := by
  rintro ⟨e, r⟩
  cases e <;> rcases r with _ | (_ | v) <;> simp [is_failed]

lemma find_failed_eq_collect {α : Type} :
    ∀ (pairs : List (α × RpcResponse)) (i : Nat) (idxs : List (Nat × Nat)) (rr : List α),
      find_failed i idxs rr pairs =
        match collect_failed i rr.length pairs with
        | .error e => .error e
        | .ok (is, rs) => .ok (idxs ++ is, rr ++ rs) := by
  intro pairs
  induction pairs with
  | nil => intro i idxs rr; simp [find_failed, collect_failed]
  | cons p rest ih =>
    obtain ⟨req, resp⟩ := p
    intro i idxs rr
    cases hif : is_failed resp with
    | error e =>
      cases e
      simp [find_failed, collect_failed, hif]
    | ok b =>
      cases b with
      | true =>
        have hlen : (rr ++ [req]).length = rr.length + 1 := by simp
        simp only [find_failed, hif, ih, hlen, collect_failed]
        cases hcf : collect_failed (i + 1) (rr.length + 1) rest with
        | error e => simp
        | ok p =>
          obtain ⟨is, rs⟩ := p
          simp [List.append_assoc]
      | false =>
        simp only [find_failed, hif, ih, collect_failed]

lemma collect_failed_mem {α : Type} :
    ∀ (pairs : List (α × RpcResponse)) (i c : Nat) (is : List (Nat × Nat)) (rs : List α)
      (oi ni : Nat),
      collect_failed i c pairs = .ok (is, rs) → (oi, ni) ∈ is →
        i ≤ oi ∧ c ≤ ni ∧ ni - c < rs.length ∧
          ∃ req resp, pairs[oi - i]? = some (req, resp) ∧ is_failed resp = .ok true ∧
            rs[ni - c]? = some req := by
  intro pairs
  induction pairs with
  | nil =>
    intro i c is rs oi ni hcf hmem
    simp [collect_failed] at hcf
    obtain ⟨h1, h2⟩ := hcf
    subst h1
    simp at hmem
  | cons p rest ih =>
    obtain ⟨req, resp⟩ := p
    intro i c is rs oi ni hcf hmem
    cases hif : is_failed resp with
    | error e => simp [collect_failed, hif] at hcf
    | ok b =>
      cases b with
      | true =>
        simp only [collect_failed, hif] at hcf
        cases hcf2 : collect_failed (i + 1) (c + 1) rest with
        | error e => rw [hcf2] at hcf; cases hcf
        | ok q =>
          obtain ⟨is2, rs2⟩ := q
          rw [hcf2] at hcf
          cases hcf
          rcases List.mem_cons.mp hmem with hhead | htail
          · cases hhead
            refine ⟨Nat.le_refl i, Nat.le_refl c, by simp, req, resp, ?_, hif, ?_⟩
            · simp
            · simp
          · obtain ⟨h1, h2, h3, req2, resp2, h4, h5, h6⟩ := ih (i + 1) (c + 1) is2 rs2 oi ni hcf2 htail
            refine ⟨by omega, by omega, by simp; omega, req2, resp2, ?_, h5, ?_⟩
            · have hoi : oi - i = (oi - (i + 1)) + 1 := by omega
              rw [hoi, List.getElem?_cons_succ]
              exact h4
            · have hni : ni - c = (ni - (c + 1)) + 1 := by omega
              rw [hni, List.getElem?_cons_succ]
              exact h6
      | false =>
        simp only [collect_failed, hif] at hcf
        obtain ⟨h1, h2, h3, req2, resp2, h4, h5, h6⟩ := ih (i + 1) c is rs oi ni hcf hmem
        refine ⟨by omega, h2, h3, req2, resp2, ?_, h5, h6⟩
        have hoi : oi - i = (oi - (i + 1)) + 1 := by omega
        rw [hoi, List.getElem?_cons_succ]
        exact h4

lemma collect_failed_pairwise {α : Type} :
    ∀ (pairs : List (α × RpcResponse)) (i c : Nat) (is : List (Nat × Nat)) (rs : List α),
      collect_failed i c pairs = .ok (is, rs) →
        List.Pairwise (fun p q => p.1 < q.1) is := by
  intro pairs
  induction pairs with
  | nil =>
    intro i c is rs hcf
    simp [collect_failed] at hcf
    obtain ⟨h1, _⟩ := hcf
    subst h1
    exact List.Pairwise.nil
  | cons p rest ih =>
    obtain ⟨req, resp⟩ := p
    intro i c is rs hcf
    cases hif : is_failed resp with
    | error e => simp [collect_failed, hif] at hcf
    | ok b =>
      cases b with
      | true =>
        simp only [collect_failed, hif] at hcf
        cases hcf2 : collect_failed (i + 1) (c + 1) rest with
        | error e => rw [hcf2] at hcf; cases hcf
        | ok q =>
          obtain ⟨is2, rs2⟩ := q
          rw [hcf2] at hcf
          cases hcf
          refine List.pairwise_cons.mpr ⟨?_, ih (i + 1) (c + 1) is2 rs2 hcf2⟩
          intro b hb
          obtain ⟨ob, nb⟩ := b
          have := (collect_failed_mem rest (i + 1) (c + 1) is2 rs2 ob nb hcf2 hb).1
          simpa using by omega
      | false =>
        simp only [collect_failed, hif] at hcf
        exact ih (i + 1) c is rs hcf

lemma splice_length (respNew : List RpcResponse) :
    ∀ (idxs : List (Nat × Nat)) (resp out : List RpcResponse),
      splice respNew idxs resp = some out → out.length = resp.length := by
  intro idxs
  induction idxs with
  | nil =>
    intro resp out h
    simp [splice] at h
    rw [h]
  | cons p rest ih =>
    obtain ⟨oldI, newI⟩ := p
    intro resp out h
    simp only [splice] at h
    cases hn : respNew[newI]? with
    | none => simp only [hn] at h; cases h
    | some r =>
      simp only [hn] at h
      by_cases hlt : oldI < resp.length
      · rw [if_pos hlt] at h
        have := ih (resp.set oldI r) out h
        simpa using this
      · rw [if_neg hlt] at h
        cases h

lemma splice_some (respNew : List RpcResponse) :
    ∀ (idxs : List (Nat × Nat)) (resp : List RpcResponse),
      (∀ oi ni, (oi, ni) ∈ idxs → ni < respNew.length ∧ oi < resp.length) →
        ∃ out, splice respNew idxs resp = some out := by
  intro idxs
  induction idxs with
  | nil => intro resp _; exact ⟨resp, rfl⟩
  | cons p rest ih =>
    obtain ⟨oldI, newI⟩ := p
    intro resp hb
    obtain ⟨hn, ho⟩ := hb oldI newI (List.mem_cons_self _ _)
    have hget : respNew[newI]? = some (respNew.get ⟨newI, hn⟩) := by
      rw [List.getElem?_eq_getElem hn, List.get_eq_getElem]
    obtain ⟨out, hout⟩ := ih (resp.set oldI (respNew.get ⟨newI, hn⟩)) (by
      intro oi ni hmem
      obtain ⟨h1, h2⟩ := hb oi ni (List.mem_cons_of_mem _ hmem)
      exact ⟨h1, by simpa using h2⟩)
    refine ⟨out, ?_⟩
    simp only [splice, hget, if_pos ho]
    exact hout

lemma splice_frame (respNew : List RpcResponse) :
    ∀ (idxs : List (Nat × Nat)) (resp out : List RpcResponse),
      splice respNew idxs resp = some out →
        ∀ j, (∀ ni, (j, ni) ∉ idxs) → out[j]? = resp[j]? := by
  intro idxs
  induction idxs with
  | nil =>
    intro resp out h j _
    simp [splice] at h
    rw [h]
  | cons p rest ih =>
    obtain ⟨oldI, newI⟩ := p
    intro resp out h j hj
    simp only [splice] at h
    cases hn : respNew[newI]? with
    | none => simp only [hn] at h; cases h
    | some r =>
      simp only [hn] at h
      by_cases hlt : oldI < resp.length
      · rw [if_pos hlt] at h
        have hne : j ≠ oldI := by
          intro hc
          exact hj newI (by rw [hc]; exact List.mem_cons_self _ _)
        have := ih (resp.set oldI r) out h j (fun ni hc => hj ni (List.mem_cons_of_mem _ hc))
        rw [this, List.getElem?_set_ne (Ne.symm hne)]
      · rw [if_neg hlt] at h
        cases h

lemma splice_update (respNew : List RpcResponse) :
    ∀ (idxs : List (Nat × Nat)) (resp out : List RpcResponse),
      List.Pairwise (fun p q => p.1 < q.1) idxs →
        splice respNew idxs resp = some out →
          ∀ oi ni, (oi, ni) ∈ idxs → out[oi]? = respNew[ni]? := by
  intro idxs
  induction idxs with
  | nil =>
    intro resp out _ _ oi ni hmem
    simp at hmem
  | cons p rest ih =>
    obtain ⟨oldI, newI⟩ := p
    intro resp out hpw h oi ni hmem
    simp only [splice] at h
    cases hn : respNew[newI]? with
    | none => simp only [hn] at h; cases h
    | some r =>
      simp only [hn] at h
      by_cases hlt : oldI < resp.length
      · rw [if_pos hlt] at h
        obtain ⟨hhead, htail⟩ := List.pairwise_cons.mp hpw
        rcases List.mem_cons.mp hmem with hh | ht
        · rw [Prod.mk.injEq] at hh
          obtain ⟨h1, h2⟩ := hh
          subst h1
          subst h2
          have hnotin : ∀ ni2, (oi, ni2) ∉ rest := by
            intro ni2 hc
            have := hhead (oi, ni2) hc
            simp at this
          have hfr := splice_frame respNew rest (resp.set oi r) out h oi hnotin
          rw [hfr, List.getElem?_set_self hlt, hn]
        · exact ih (resp.set oldI r) out htail h oi ni ht
      · rw [if_neg hlt] at h
        cases h

lemma individual_requests_length {σ α : Type} (env : Env σ α) (nr : Bool) (fuel : Nat) :
    ∀ (reqs : List α) (s : σ) (out : List RpcResponse) (s₁ : σ),
      individual_requests env nr fuel s reqs = (.ok out, s₁) → out.length = reqs.length := by
  intro reqs
  induction reqs with
  | nil =>
    intro s out s₁ h
    simp only [individual_requests, Prod.mk.injEq, Except.ok.injEq] at h
    obtain ⟨h1, _⟩ := h
    rw [← h1]
    rfl
  | cons req rest ih =>
    intro s out s₁ h
    simp only [individual_requests] at h
    rcases hx : (exponential_retry env nr fuel s req).1 with ⟨ex | r, s₂⟩
    · simp [hx] at h
    · simp only [hx] at h
      rcases hy : individual_requests env nr fuel s₂ rest with ⟨ey | rs, s₃⟩
      · simp [hy] at h
      · simp only [hy, Prod.mk.injEq, Except.ok.injEq] at h
        obtain ⟨h1, _⟩ := h
        rw [← h1]
        simp [ih s₂ rs s₃ hy]

lemma run_chunks_length {σ α : Type} (rec : σ → List α → Except ExecErr (List RpcResponse) × σ)
    (b : Nat)
    (hrec : ∀ s reqs out s₁, rec s reqs = (.ok out, s₁) → out.length = reqs.length) :
    ∀ (fuel : Nat) (reqs : List α) (s : σ) (out : List RpcResponse) (s₁ : σ),
      run_chunks rec b fuel s reqs = (.ok out, s₁) → out.length = reqs.length := by
  intro fuel
  induction fuel with
  | zero => intro reqs s out s₁ h; simp [run_chunks] at h
  | succ fuel ih =>
    intro reqs s out s₁ h
    cases reqs with
    | nil =>
      simp only [run_chunks, Prod.mk.injEq, Except.ok.injEq] at h
      obtain ⟨h1, _⟩ := h
      rw [← h1]
      rfl
    | cons req rest =>
      simp only [run_chunks, List.take_succ_cons, List.drop_succ_cons] at h
      rcases hx : rec s (req :: rest.take b) with ⟨ex | r, s₂⟩
      · simp [hx] at h
      · simp only [hx] at h
        rcases hy : run_chunks rec b fuel s₂ (rest.drop b) with ⟨ey | rs, s₃⟩
        · simp [hy] at h
        · simp only [hy, Prod.mk.injEq, Except.ok.injEq] at h
          obtain ⟨h1, _⟩ := h
          rw [← h1]
          have hl1 := hrec s (req :: rest.take b) r s₂ hx
          have hl2 := ih (rest.drop b) s₂ rs s₃ hy
          rw [List.length_append, hl1, hl2]
          simp only [List.length_cons, List.length_take, List.length_drop]
          omega

lemma bisect_length {σ α : Type} (rec : σ → List α → Except ExecErr (List RpcResponse) × σ)
    (hrec : ∀ s reqs out s₁, rec s reqs = (.ok out, s₁) → out.length = reqs.length) :
    ∀ (s : σ) (reqs : List α) (out : List RpcResponse) (s₁ : σ),
      bisect rec s reqs = (.ok out, s₁) → out.length = reqs.length := by
  intro s reqs out s₁ h
  simp only [bisect] at h
  rcases hx : rec s (reqs.take (reqs.length / 2)) with ⟨ex | r₁, s₂⟩
  · simp [hx] at h
  · simp only [hx] at h
    rcases hy : rec s₂ (reqs.drop (reqs.length / 2)) with ⟨ey | r₂, s₃⟩
    · simp [hy] at h
    · simp only [hy, Prod.mk.injEq, Except.ok.injEq] at h
      obtain ⟨h1, _⟩ := h
      rw [← h1]
      have hl1 := hrec s (reqs.take (reqs.length / 2)) r₁ s₂ hx
      have hl2 := hrec s₂ (reqs.drop (reqs.length / 2)) r₂ s₃ hy
      rw [List.length_append, hl1, hl2, List.length_take, List.length_drop]
      omega

lemma middleware_length {σ α : Type} (maxB : Nat) (sr : Bool) (env : Env σ α) :
    ∀ (fuel : Nat) (s : σ) (reqs : List α) (out : List RpcResponse) (s₁ : σ),
      middleware maxB sr env fuel s reqs = (.ok out, s₁) → out.length = reqs.length := by
  intro fuel
  induction fuel with
  | zero => intro s reqs out s₁ h; simp [middleware] at h
  | succ fuel ih =>
    intro s reqs out s₁ h
    simp only [middleware] at h
    by_cases h0 : reqs.length = 0
    · rw [if_pos h0] at h
      simp only [Prod.mk.injEq, Except.ok.injEq] at h
      obtain ⟨h1, _⟩ := h
      rw [← h1, h0]
      rfl
    · rw [if_neg h0] at h
      by_cases hC : maxB < reqs.length
      · rw [if_pos hC] at h
        cases hmB : maxB with
        | zero =>
          subst hmB
          simp at h
        | succ b =>
          subst hmB
          simp only [] at h
          exact run_chunks_length (middleware (b + 1) sr env fuel) b
            (fun s2 reqs2 out2 s12 hx => ih s2 reqs2 out2 s12 hx) fuel reqs s out s₁ h
      · rw [if_neg hC] at h
        rcases hA : (if maxB = 0 ∨ reqs.length = 1
            then individual_requests env (!sr) fuel s reqs
            else batch_attempt env s reqs) with ⟨eA | resps, s₂⟩
        · cases eA with
          | py e =>
            simp only [hA] at h
            by_cases h1 : 1 < reqs.length
            · rw [if_pos h1] at h
              exact bisect_length (middleware maxB sr env fuel)
                (fun s2 reqs2 out2 s12 hx => ih s2 reqs2 out2 s12 hx) s₂ reqs out s₁ h
            · rw [if_neg h1] at h
              simp at h
          | outOfFuel => simp [hA] at h
        · simp only [hA] at h
          by_cases hL : resps.length = reqs.length
          · rw [if_pos hL] at h
            rcases hF : find_failed 0 [] [] (reqs.zip resps) with eF | ⟨idxs, rr⟩
            · simp [hF] at h
            · simp only [hF] at h
              by_cases hR : rr.length = 0
              · rw [if_pos hR] at h
                simp only [Prod.mk.injEq, Except.ok.injEq] at h
                obtain ⟨h1, _⟩ := h
                rw [← h1]
                exact hL
              · rw [if_neg hR] at h
                rcases hM : middleware maxB sr env fuel s₂ rr with ⟨eM | respNew, s₃⟩
                · simp [hM] at h
                · simp only [hM] at h
                  rcases hS : splice respNew idxs resps with _ | merged
                  · simp [hS] at h
                  · simp only [hS, Prod.mk.injEq, Except.ok.injEq] at h
                    obtain ⟨h1, _⟩ := h
                    rw [← h1]
                    rw [splice_length respNew idxs resps merged hS]
                    exact hL
          · rw [if_neg hL] at h
            exact bisect_length (middleware maxB sr env fuel)
              (fun s2 reqs2 out2 s12 hx => ih s2 reqs2 out2 s12 hx) s₂ reqs out s₁ h

lemma forall₂_iff_index {α β : Type} (R : α → β → Prop) :
    ∀ (l₁ : List α) (l₂ : List β),
      List.Forall₂ R l₁ l₂ ↔
        (l₁.length = l₂.length ∧
          ∀ (i : Nat) (a : α) (b : β), l₁[i]? = some a → l₂[i]? = some b → R a b) := by
  intro l₁
  induction l₁ with
  | nil =>
    intro l₂
    cases l₂ with
    | nil => simp
    | cons b l₂ => simp
  | cons a l₁ ih =>
    intro l₂
    cases l₂ with
    | nil => simp
    | cons b l₂ =>
      simp only [List.forall₂_cons, ih, List.length_cons]
      constructor
      · rintro ⟨hab, hlen, hrest⟩
        refine ⟨by omega, ?_⟩
        intro i x y hx hy
        cases i with
        | zero =>
          simp only [List.getElem?_cons_zero, Option.some.injEq] at hx hy
          rw [← hx, ← hy]
          exact hab
        | succ i =>
          simp only [List.getElem?_cons_succ] at hx hy
          exact hrest i x y hx hy
      · rintro ⟨hlen, hrest⟩
        refine ⟨?_, by omega, ?_⟩
        · exact hrest 0 a b (by simp) (by simp)
        · intro i x y hx hy
          exact hrest (i + 1) x y (by simpa) (by simpa)

lemma retry_loop_rel {σ α : Type} (env : Env σ α) (R : α → RpcResponse → Prop)
    (hs : ∀ s req r s₁, env.make_request s req = (.ok r, s₁) → R req r) :
    ∀ (fuel retries : Nat) (s : σ) (req : α) (r : RpcResponse) (s₁ : σ) (ws : List Nat),
      retry_loop env fuel retries s req = ((.ok r, s₁), ws) → R req r := by
  intro fuel
  induction fuel with
  | zero => intro retries s req r s₁ ws h; simp [retry_loop] at h
  | succ fuel ih =>
    intro retries s req r s₁ ws h
    simp only [retry_loop] at h
    rcases hx : env.make_request s req with ⟨e | r₂, s₂⟩
    · cases e
      case contractLogic => simp [hx] at h
      all_goals
        simp only [hx, Prod.mk.injEq] at h
        obtain ⟨h1, _⟩ := h
        exact ih (retries + 1) s₂ req r s₁ _ (by rw [← h1])
    · simp only [hx, Prod.mk.injEq, Except.ok.injEq] at h
      obtain ⟨⟨h1, _⟩, _⟩ := h
      rw [← h1]
      exact hs s req r₂ s₂ hx

lemma exponential_retry_rel {σ α : Type} (env : Env σ α) (R : α → RpcResponse → Prop)
    (hs : ∀ s req r s₁, env.make_request s req = (.ok r, s₁) → R req r) :
    ∀ (nr : Bool) (fuel : Nat) (s : σ) (req : α) (r : RpcResponse) (s₁ : σ) (ws : List Nat),
      exponential_retry env nr fuel s req = ((.ok r, s₁), ws) → R req r := by
  intro nr fuel s req r s₁ ws h
  cases nr with
  | false =>
    simp only [exponential_retry, Bool.false_eq_true, if_false] at h
    exact retry_loop_rel env R hs fuel 0 s req r s₁ ws h
  | true =>
    simp only [exponential_retry, if_true] at h
    rcases hx : env.make_request s req with ⟨e | r₂, s₂⟩
    · simp [hx] at h
    · simp only [hx, Prod.mk.injEq, Except.ok.injEq] at h
      obtain ⟨⟨h1, _⟩, _⟩ := h
      rw [← h1]
      exact hs s req r₂ s₂ hx

lemma individual_requests_rel {σ α : Type} (env : Env σ α) (R : α → RpcResponse → Prop)
    (nr : Bool) (fuel : Nat)
    (hs : ∀ s req r s₁, env.make_request s req = (.ok r, s₁) → R req r) :
    ∀ (reqs : List α) (s : σ) (out : List RpcResponse) (s₁ : σ),
      individual_requests env nr fuel s reqs = (.ok out, s₁) → List.Forall₂ R reqs out := by
  intro reqs
  induction reqs with
  | nil =>
    intro s out s₁ h
    simp only [individual_requests, Prod.mk.injEq, Except.ok.injEq] at h
    obtain ⟨h1, _⟩ := h
    rw [← h1]
    exact List.Forall₂.nil
  | cons req rest ih =>
    intro s out s₁ h
    simp only [individual_requests] at h
    rcases hx : (exponential_retry env nr fuel s req).1 with ⟨ex | r, s₂⟩
    · simp [hx] at h
    · simp only [hx] at h
      rcases hy : individual_requests env nr fuel s₂ rest with ⟨ey | rs, s₃⟩
      · simp [hy] at h
      · simp only [hy, Prod.mk.injEq, Except.ok.injEq] at h
        obtain ⟨h1, _⟩ := h
        rw [← h1]
        have hr : R req r :=
          exponential_retry_rel env R hs nr fuel s req r s₂ (exponential_retry env nr fuel s req).2
            (by rw [← hx])
        exact List.Forall₂.cons hr (ih s₂ rs s₃ hy)

lemma run_chunks_rel {σ α : Type} (rec : σ → List α → Except ExecErr (List RpcResponse) × σ)
    (b : Nat) (R : α → RpcResponse → Prop)
    (hrec : ∀ s reqs out s₁, rec s reqs = (.ok out, s₁) → List.Forall₂ R reqs out) :
    ∀ (fuel : Nat) (reqs : List α) (s : σ) (out : List RpcResponse) (s₁ : σ),
      run_chunks rec b fuel s reqs = (.ok out, s₁) → List.Forall₂ R reqs out := by
  intro fuel
  induction fuel with
  | zero => intro reqs s out s₁ h; simp [run_chunks] at h
  | succ fuel ih =>
    intro reqs s out s₁ h
    cases reqs with
    | nil =>
      simp only [run_chunks, Prod.mk.injEq, Except.ok.injEq] at h
      obtain ⟨h1, _⟩ := h
      rw [← h1]
      exact List.Forall₂.nil
    | cons req rest =>
      simp only [run_chunks, List.take_succ_cons, List.drop_succ_cons] at h
      rcases hx : rec s (req :: rest.take b) with ⟨ex | r, s₂⟩
      · simp [hx] at h
      · simp only [hx] at h
        rcases hy : run_chunks rec b fuel s₂ (rest.drop b) with ⟨ey | rs, s₃⟩
        · simp [hy] at h
        · simp only [hy, Prod.mk.injEq, Except.ok.injEq] at h
          obtain ⟨h1, _⟩ := h
          rw [← h1]
          have hsplit : (req :: rest.take b) ++ rest.drop b = req :: rest := by
            rw [List.cons_append, List.take_append_drop]
          exact hsplit ▸ List.rel_append (hrec s (req :: rest.take b) r s₂ hx)
            (ih (rest.drop b) s₂ rs s₃ hy)

lemma bisect_rel {σ α : Type} (rec : σ → List α → Except ExecErr (List RpcResponse) × σ)
    (R : α → RpcResponse → Prop)
    (hrec : ∀ s reqs out s₁, rec s reqs = (.ok out, s₁) → List.Forall₂ R reqs out) :
    ∀ (s : σ) (reqs : List α) (out : List RpcResponse) (s₁ : σ),
      bisect rec s reqs = (.ok out, s₁) → List.Forall₂ R reqs out := by
  intro s reqs out s₁ h
  simp only [bisect] at h
  rcases hx : rec s (reqs.take (reqs.length / 2)) with ⟨ex | r₁, s₂⟩
  · simp [hx] at h
  · simp only [hx] at h
    rcases hy : rec s₂ (reqs.drop (reqs.length / 2)) with ⟨ey | r₂, s₃⟩
    · simp [hy] at h
    · simp only [hy, Prod.mk.injEq, Except.ok.injEq] at h
      obtain ⟨h1, _⟩ := h
      rw [← h1]
      have hsplit : reqs.take (reqs.length / 2) ++ reqs.drop (reqs.length / 2) = reqs :=
        List.take_append_drop _ reqs
      exact hsplit ▸ List.rel_append (hrec s (reqs.take (reqs.length / 2)) r₁ s₂ hx)
        (hrec s₂ (reqs.drop (reqs.length / 2)) r₂ s₃ hy)

lemma splice_rel {α : Type} (R : α → RpcResponse → Prop) (reqs : List α)
    (resps respNew out : List RpcResponse) (idxs : List (Nat × Nat)) (rr : List α)
    (h1 : List.Forall₂ R reqs resps)
    (h2 : List.Forall₂ R rr respNew)
    (hcf : collect_failed 0 0 (reqs.zip resps) = .ok (idxs, rr))
    (hout : splice respNew idxs resps = some out) :
    List.Forall₂ R reqs out := by
  rw [forall₂_iff_index] at h1 h2 ⊢
  obtain ⟨hlen1, hrel1⟩ := h1
  obtain ⟨hlen2, hrel2⟩ := h2
  have hlenout : out.length = resps.length := splice_length respNew idxs resps out hout
  refine ⟨by omega, ?_⟩
  intro i a b hia hib
  by_cases hj : ∃ ni, (i, ni) ∈ idxs
  · obtain ⟨ni, hmem⟩ := hj
    have hpw := collect_failed_pairwise (reqs.zip resps) 0 0 idxs rr hcf
    have hupd := splice_update respNew idxs resps out hpw hout i ni hmem
    obtain ⟨_, _, hni, req2, resp2, hzip, _, hrs⟩ :=
      collect_failed_mem (reqs.zip resps) 0 0 idxs rr i ni hcf hmem
    simp only [Nat.sub_zero] at hni hzip hrs
    have hz := List.getElem?_zip_eq_some.mp hzip
    have hreq : req2 = a := by
      have := hz.1
      rw [hia] at this
      exact (Option.some.injEq _ _ ▸ this).symm
    exact hrel2 ni a b (by rw [hrs, hreq]) (by rw [← hupd]; exact hib)
  · push_neg at hj
    have hfr := splice_frame respNew idxs resps out hout i hj
    exact hrel1 i a b hia (by rw [← hfr]; exact hib)

lemma find_failed_to_collect {α : Type} (reqs : List α) (resps : List RpcResponse)
    (idxs : List (Nat × Nat)) (rr : List α)
    (hF : find_failed 0 [] [] (reqs.zip resps) = .ok (idxs, rr)) :
    collect_failed 0 0 (reqs.zip resps) = .ok (idxs, rr) := by
  have heq := find_failed_eq_collect (reqs.zip resps) 0 [] []
  rw [hF] at heq
  simp only [List.length_nil] at heq
  cases hcc : collect_failed 0 0 (reqs.zip resps) with
  | error e =>
    rw [hcc] at heq
    cases heq
  | ok p =>
    obtain ⟨is, rs⟩ := p
    rw [hcc] at heq
    simp only [List.nil_append, Except.ok.injEq, Prod.mk.injEq] at heq
    obtain ⟨h1, h2⟩ := heq
    rw [← h1, ← h2]

lemma middleware_rel {σ α : Type} (maxB : Nat) (sr : Bool) (env : Env σ α)
    (R : α → RpcResponse → Prop)
    (hbatch : ∀ s reqs resps s₁, env.make_batch_request s reqs = (.ok resps, s₁) →
      resps.length = reqs.length → List.Forall₂ R reqs resps)
    (hsingle : ∀ s req r s₁, env.make_request s req = (.ok r, s₁) → R req r) :
    ∀ (fuel : Nat) (s : σ) (reqs : List α) (out : List RpcResponse) (s₁ : σ),
      middleware maxB sr env fuel s reqs = (.ok out, s₁) → List.Forall₂ R reqs out := by
  intro fuel
  induction fuel with
  | zero => intro s reqs out s₁ h; simp [middleware] at h
  | succ fuel ih =>
    intro s reqs out s₁ h
    simp only [middleware] at h
    by_cases h0 : reqs.length = 0
    · rw [if_pos h0] at h
      simp only [Prod.mk.injEq, Except.ok.injEq] at h
      obtain ⟨h1, _⟩ := h
      rw [← h1, List.length_eq_zero.mp h0]
      exact List.Forall₂.nil
    · rw [if_neg h0] at h
      by_cases hC : maxB < reqs.length
      · rw [if_pos hC] at h
        cases hmB : maxB with
        | zero => subst hmB; simp at h
        | succ b =>
          subst hmB
          simp only [] at h
          exact run_chunks_rel (middleware (b + 1) sr env fuel) b R
            (fun s2 r2 o2 s12 hx => ih s2 r2 o2 s12 hx) fuel reqs s out s₁ h
      · rw [if_neg hC] at h
        by_cases hcond : maxB = 0 ∨ reqs.length = 1
        · rw [if_pos hcond] at h
          rcases hI : individual_requests env (!sr) fuel s reqs with ⟨eI | resps, s₂⟩
          · cases eI with
            | py e =>
              simp only [hI] at h
              by_cases h1 : 1 < reqs.length
              · rw [if_pos h1] at h
                exact bisect_rel (middleware maxB sr env fuel) R
                  (fun s2 r2 o2 s12 hx => ih s2 r2 o2 s12 hx) s₂ reqs out s₁ h
              · rw [if_neg h1] at h
                simp at h
            | outOfFuel => simp [hI] at h
          · simp only [hI] at h
            have hresps : resps.length = reqs.length → List.Forall₂ R reqs resps :=
              fun _ => individual_requests_rel env R (!sr) fuel hsingle reqs s resps s₂ hI
            by_cases hL : resps.length = reqs.length
            · rw [if_pos hL] at h
              rcases hF : find_failed 0 [] [] (reqs.zip resps) with eF | ⟨idxs, rr⟩
              · simp [hF] at h
              · simp only [hF] at h
                by_cases hR : rr.length = 0
                · rw [if_pos hR] at h
                  simp only [Prod.mk.injEq, Except.ok.injEq] at h
                  obtain ⟨h1, _⟩ := h
                  rw [← h1]
                  exact hresps hL
                · rw [if_neg hR] at h
                  rcases hM : middleware maxB sr env fuel s₂ rr with ⟨eM | respNew, s₃⟩
                  · simp [hM] at h
                  · simp only [hM] at h
                    rcases hS : splice respNew idxs resps with _ | merged
                    · simp [hS] at h
                    · simp only [hS, Prod.mk.injEq, Except.ok.injEq] at h
                      obtain ⟨h1, _⟩ := h
                      rw [← h1]
                      exact splice_rel R reqs resps respNew merged idxs rr (hresps hL)
                        (ih s₂ rr respNew s₃ hM) (find_failed_to_collect reqs resps idxs rr hF) hS
            · rw [if_neg hL] at h
              exact bisect_rel (middleware maxB sr env fuel) R
                (fun s2 r2 o2 s12 hx => ih s2 r2 o2 s12 hx) s₂ reqs out s₁ h
        · rw [if_neg hcond] at h
          simp only [batch_attempt] at h
          rcases hB : env.make_batch_request s reqs with ⟨eB | resps, s₂⟩
          · simp only [hB] at h
            by_cases h1 : 1 < reqs.length
            · rw [if_pos h1] at h
              exact bisect_rel (middleware maxB sr env fuel) R
                (fun s2 r2 o2 s12 hx => ih s2 r2 o2 s12 hx) s₂ reqs out s₁ h
            · rw [if_neg h1] at h
              simp at h
          · simp only [hB] at h
            have hresps : resps.length = reqs.length → List.Forall₂ R reqs resps :=
              fun hL => hbatch s reqs resps s₂ hB hL
            by_cases hL : resps.length = reqs.length
            · rw [if_pos hL] at h
              rcases hF : find_failed 0 [] [] (reqs.zip resps) with eF | ⟨idxs, rr⟩
              · simp [hF] at h
              · simp only [hF] at h
                by_cases hR : rr.length = 0
                · rw [if_pos hR] at h
                  simp only [Prod.mk.injEq, Except.ok.injEq] at h
                  obtain ⟨h1, _⟩ := h
                  rw [← h1]
                  exact hresps hL
                · rw [if_neg hR] at h
                  rcases hM : middleware maxB sr env fuel s₂ rr with ⟨eM | respNew, s₃⟩
                  · simp [hM] at h
                  · simp only [hM] at h
                    rcases hS : splice respNew idxs resps with _ | merged
                    · simp [hS] at h
                    · simp only [hS, Prod.mk.injEq, Except.ok.injEq] at h
                      obtain ⟨h1, _⟩ := h
                      rw [← h1]
                      exact splice_rel R reqs resps respNew merged idxs rr (hresps hL)
                        (ih s₂ rr respNew s₃ hM) (find_failed_to_collect reqs resps idxs rr hF) hS
            · rw [if_neg hL] at h
              exact bisect_rel (middleware maxB sr env fuel) R
                (fun s2 r2 o2 s12 hx => ih s2 r2 o2 s12 hx) s₂ reqs out s₁ h

/-- C1 counterexample: at `maxBatchSize = 0` the middleware does not return
a same-length response list for a non-empty input — it raises `ValueError`
from `range(0, 2, 0)` in the chunking loop. -/
theorem batch_zero_breaks_length_invariant :
    middleware 0 true env_fail 4 () [1, 2] = (.error (.py .valueError), ()) ∧
      (middleware 0 true env_fail 4 () [1, 2]).1.isOk = false :=
  ⟨rfl, rfl⟩

/-- C1 (amended): for `maxBatchSize ≥ 1`, whenever the middleware returns a
response list, it has the same length as the request list, and the response
at each index is related to the request at that index by any relation `R`
that the endpoint's successful answers respect (positionally for batched
calls, per request for single calls) — across chunking, partial-retry
splicing and bisection. -/
theorem batch_middleware_length_and_order {σ α : Type} (env : Env σ α)
    (R : α → RpcResponse → Prop) (maxB : Nat) (sr : Bool) (fuel : Nat) (s s₁ : σ)
    (reqs : List α) (out : List RpcResponse)
    (_hmaxB : 1 ≤ maxB)
    (hbatch : ∀ s2 reqs2 resps s3, env.make_batch_request s2 reqs2 = (.ok resps, s3) →
      resps.length = reqs2.length → List.Forall₂ R reqs2 resps)
    (hsingle : ∀ s2 req r s3, env.make_request s2 req = (.ok r, s3) → R req r)
    (h : middleware maxB sr env fuel s reqs = (.ok out, s₁)) :
    out.length = reqs.length ∧
      ∀ (i : Nat) (req : α) (resp : RpcResponse),
        reqs[i]? = some req → out[i]? = some resp → R req resp := by
  have hf := middleware_rel maxB sr env R hbatch hsingle fuel s reqs out s₁ h
  rw [forall₂_iff_index] at hf
  exact ⟨hf.1.symm, hf.2⟩

lemma forall₂_echo (l : List Nat) :
    List.Forall₂ (fun q r => r = echo_response q) l (l.map echo_response) := by
  rw [List.forall₂_map_right_iff]
  exact List.forall₂_same.mpr fun x _ => rfl

/-- Witness for C1 on an echoing endpoint: three requests through
`maxBatchSize = 2` (one chunked batched call plus one individual call). -/
theorem batch_middleware_length_and_order_witness :
    middleware 2 true env_echo 6 () [5, 7, 9] =
      (.ok [echo_response 5, echo_response 7, echo_response 9], ()) ∧
    [echo_response 5, echo_response 7, echo_response 9].length = [5, 7, 9].length ∧
    ∀ (i : Nat) (q : Nat) (r : RpcResponse), [5, 7, 9][i]? = some q →
      [echo_response 5, echo_response 7, echo_response 9][i]? = some r →
        r = echo_response q := by
  have hb : ∀ s2 reqs2 resps s3,
      env_echo.make_batch_request s2 reqs2 = (.ok resps, s3) →
      resps.length = reqs2.length →
      List.Forall₂ (fun q r => r = echo_response q) reqs2 resps := by
    intro s2 reqs2 resps s3 h _
    simp only [env_echo, Prod.mk.injEq, Except.ok.injEq] at h
    obtain ⟨h1, _⟩ := h
    rw [← h1]
    exact forall₂_echo reqs2
  have hsg : ∀ s2 req r s3, env_echo.make_request s2 req = (.ok r, s3) →
      r = echo_response req := by
    intro s2 req r s3 h
    simp only [env_echo, Prod.mk.injEq, Except.ok.injEq] at h
    exact h.1.symm
  have hrun : middleware 2 true env_echo 6 () [5, 7, 9] =
      (.ok [echo_response 5, echo_response 7, echo_response 9], ()) := rfl
  have hc := batch_middleware_length_and_order env_echo (fun q r => r = echo_response q)
    2 true 6 () () [5, 7, 9] [echo_response 5, echo_response 7, echo_response 9]
    (by decide) hb hsg hrun
  exact ⟨hrun, hc.1, hc.2⟩

/-- C4: when a batched call returns a length-matching response list whose
failed subset is a non-empty strict subset, the middleware re-executes only
the failed requests and splices the new responses into the original
positional slots: every first-attempt success appears unchanged in the
output, and each failed slot `oi` carries the recursive answer for its
retry index `ni`. -/
theorem batch_partial_retry_frame {σ α : Type} (env : Env σ α) (maxB fuel : Nat) (sr : Bool)
    (s s₁ s₂ : σ) (reqs : List α) (resps respNew : List RpcResponse)
    (idxs : List (Nat × Nat)) (rr : List α)
    (htwo : 2 ≤ reqs.length) (hmb : reqs.length ≤ maxB)
    (hbatch : env.make_batch_request s reqs = (.ok resps, s₁))
    (hlen : resps.length = reqs.length)
    (hff : find_failed 0 [] [] (reqs.zip resps) = .ok (idxs, rr))
    (hne : ¬rr.length = 0)
    (_hstrict : rr.length < reqs.length)
    (hrec : middleware maxB sr env fuel s₁ rr = (.ok respNew, s₂)) :
    ∃ out, middleware maxB sr env (fuel + 1) s reqs = (.ok out, s₂) ∧
      out.length = reqs.length ∧
      (∀ (j : Nat) (resp : RpcResponse), resps[j]? = some resp →
        is_failed resp = .ok false → out[j]? = some resp) ∧
      (∀ oi ni, (oi, ni) ∈ idxs → out[oi]? = respNew[ni]?) := by
  have hcf := find_failed_to_collect reqs resps idxs rr hff
  have hrlen : respNew.length = rr.length :=
    middleware_length maxB sr env fuel s₁ rr respNew s₂ hrec
  have hbounds : ∀ oi ni, (oi, ni) ∈ idxs → ni < respNew.length ∧ oi < resps.length := by
    intro oi ni hmem
    obtain ⟨_, _, hni, req2, resp2, hzip, _, _⟩ :=
      collect_failed_mem (reqs.zip resps) 0 0 idxs rr oi ni hcf hmem
    simp only [Nat.sub_zero] at hni hzip
    have hlt := (List.getElem?_eq_some_iff.mp hzip).1
    rw [List.length_zip] at hlt
    constructor
    · omega
    · omega
  obtain ⟨out, hout⟩ := splice_some respNew idxs resps hbounds
  refine ⟨out, ?_, ?_, ?_, ?_⟩
  · have hne0 : ¬reqs.length = 0 := by omega
    have hnC : ¬maxB < reqs.length := by omega
    have hncond : ¬(maxB = 0 ∨ reqs.length = 1) := by
      push_neg
      constructor <;> omega
    simp only [middleware, if_neg hne0, if_neg hnC, if_neg hncond, batch_attempt, hbatch,
      if_pos hlen, hff, if_neg hne, hrec, hout]
  · rw [splice_length respNew idxs resps out hout]
    exact hlen
  · intro j resp hj hfail
    have hnotin : ∀ ni, (j, ni) ∉ idxs := by
      intro ni hmem
      obtain ⟨_, _, _, req2, resp2, hzip, hfail2, _⟩ :=
        collect_failed_mem (reqs.zip resps) 0 0 idxs rr j ni hcf hmem
      simp only [Nat.sub_zero] at hzip
      have hz2 := (List.getElem?_zip_eq_some.mp hzip).2
      rw [hj] at hz2
      simp only [Option.some.injEq] at hz2
      rw [← hz2] at hfail2
      rw [hfail] at hfail2
      cases hfail2
    have hfr := splice_frame respNew idxs resps out hout j hnotin
    rw [hfr]
    exact hj
  · intro oi ni hmem
    exact splice_update respNew idxs resps out
      (collect_failed_pairwise (reqs.zip resps) 0 0 idxs rr hcf) hout oi ni hmem

/-- Witness for C4: a 2-request batch whose first entry fails once and is
healed by a recursive size-1 retry while the healthy second answer is kept. -/
theorem batch_partial_retry_frame_witness :
    env_retry_once.make_batch_request 0 [5, 7] = (.ok [⟨some 1, none⟩, echo_response 7], 1) ∧
    find_failed 0 [] [] ([5, 7].zip [⟨some 1, none⟩, echo_response 7]) = .ok ([(0, 0)], [5]) ∧
    middleware 2 true env_retry_once 3 1 [5] = (.ok [echo_response 5], 2) ∧
    ∃ out, middleware 2 true env_retry_once 4 0 [5, 7] = (.ok out, 2) ∧
      out.length = [5, 7].length ∧
      (∀ (j : Nat) (resp : RpcResponse),
        [(⟨some 1, none⟩ : RpcResponse), echo_response 7][j]? = some resp →
        is_failed resp = .ok false → out[j]? = some resp) ∧
      (∀ oi ni, (oi, ni) ∈ [(0, 0)] → out[oi]? = [echo_response 5][ni]?) := by
  refine ⟨rfl, rfl, rfl, ?_⟩
  exact batch_partial_retry_frame env_retry_once 2 3 true 0 1 2 [5, 7]
    [⟨some 1, none⟩, echo_response 7] [echo_response 5] [(0, 0)] [5]
    (by decide) (by decide) rfl rfl rfl (by decide) (by decide) rfl

lemma find_max_aux_eq_find {L : Type} (g : Int → Int → Except PyErr (List L)) (cur : Int) :
    ∀ l : List Nat,
      find_max_filter_range_aux g cur l =
        match l.find? (canary_ok g cur) with
        | some r => .ok r
        | none => .error .valueError := by
  intro l
  induction l with
  | nil => simp [find_max_filter_range_aux, List.find?]
  | cons r rest ih =>
    cases hc : g (cur - 5 - (r : Int) + 1) (cur - 5) with
    | error e => simp [find_max_filter_range_aux, List.find?, canary_ok, hc, ih]
    | ok res =>
      cases res with
      | nil => simp [find_max_filter_range_aux, List.find?, canary_ok, hc]
      | cons x xs => simp [find_max_filter_range_aux, List.find?, canary_ok, hc, ih]

lemma reject_above_big (bound : Int) (cur : Int) (r : Nat) (hr : bound < (r : Int)) :
    reject_above bound (cur - 5 - (r : Int) + 1) (cur - 5) = .error .transient := by
  simp only [reject_above]
  rw [show cur - 5 - (cur - 5 - (r : Int) + 1) + 1 = (r : Int) from by ring]
  rw [if_pos hr]

lemma reject_above_small (bound : Int) (cur : Int) (r : Nat) (hr : (r : Int) ≤ bound) :
    reject_above bound (cur - 5 - (r : Int) + 1) (cur - 5) = .ok [] := by
  simp only [reject_above]
  rw [show cur - 5 - (cur - 5 - (r : Int) + 1) + 1 = (r : Int) from by ring]
  rw [if_neg (by omega)]

lemma find_max_aux_hit {L : Type} (g : Int → Int → Except PyErr (List L)) (cur : Int)
    (r : Nat) (rest : List Nat)
    (h : g (cur - 5 - (r : Int) + 1) (cur - 5) = .ok []) :
    find_max_filter_range_aux g cur (r :: rest) = .ok r := by
  simp [find_max_filter_range_aux, h]

lemma find_max_aux_skip_reject (cur : Int) (r : Nat) (rest : List Nat)
    (hr : (500 : Int) < (r : Int)) :
    find_max_filter_range_aux (reject_above 500) cur (r :: rest) =
      find_max_filter_range_aux (reject_above 500) cur rest := by
  simp [find_max_filter_range_aux, reject_above_big 500 cur r hr]

/-- C5 counterexample: against the endpoint that rejects exactly the ranges
larger than 500, calibration returns 500 (which is itself a candidate), not
200. -/
theorem calibration_returns_500_not_200 :
    find_max_filter_range (reject_above 500) 1000000 = .ok 500 ∧
      (Except.ok 500 : Except PyErr Nat) ≠ .ok 200 :=
  ⟨by decide, by decide⟩

/-- C5 (amended): `_find_max_filter_range` walks its candidate list — which
is strictly descending — in order and returns the first candidate whose
canary query succeeds with an empty result (an exhausted list raises
`ValueError`); against an endpoint that rejects ranges larger than 500 and
accepts all others it returns exactly 500, the largest candidate not
exceeding 500, for every current block number. -/
theorem calibration_first_success :
    (∀ (L : Type) (g : Int → Int → Except PyErr (List L)) (cur : Int) (l : List Nat),
      find_max_filter_range_aux g cur l =
        match l.find? (canary_ok g cur) with
        | some r => .ok r
        | none => .error .valueError) ∧
    List.Pairwise (fun a b => b < a) FILTER_RANGES_TO_TRY ∧
    (∀ cur : Int, find_max_filter_range (reject_above 500) cur = .ok 500) := by
  refine ⟨fun L g cur l => find_max_aux_eq_find g cur l, by decide, ?_⟩
  intro cur
  rw [find_max_filter_range, FILTER_RANGES_TO_TRY]
  rw [find_max_aux_skip_reject cur 10000 _ (by norm_num),
    find_max_aux_skip_reject cur 5000 _ (by norm_num),
    find_max_aux_skip_reject cur 2000 _ (by norm_num),
    find_max_aux_skip_reject cur 1000 _ (by norm_num)]
  exact find_max_aux_hit (reject_above 500) cur 500 _
    (reject_above_small 500 cur 500 (by norm_num))

/-- C10: a canary query that succeeds with a non-empty result makes the
`assert result == []` fail inside the `try`, and the swallowed
`AssertionError` moves calibration on to the next candidate exactly as a
rejected query would; consequently `_find_max_filter_range` either returns
a candidate whose canary succeeded with an empty result, or raises the
calibration-exhaustion `ValueError`. -/
theorem calibration_assert_swallowed :
    (∀ (L : Type) (g : Int → Int → Except PyErr (List L)) (cur : Int) (r : Nat)
      (rest : List Nat) (x : L) (xs : List L),
      g (cur - 5 - (r : Int) + 1) (cur - 5) = .ok (x :: xs) →
      find_max_filter_range_aux g cur (r :: rest) = find_max_filter_range_aux g cur rest) ∧
    (∀ (L : Type) (g : Int → Int → Except PyErr (List L)) (cur : Int) (l : List Nat) (r : Nat),
      find_max_filter_range_aux g cur l = .ok r →
        r ∈ l ∧ g (cur - 5 - (r : Int) + 1) (cur - 5) = .ok []) ∧
    (∀ (L : Type) (g : Int → Int → Except PyErr (List L)) (cur : Int) (l : List Nat),
      (∃ r, find_max_filter_range_aux g cur l = .ok r) ∨
        find_max_filter_range_aux g cur l = .error .valueError) := by
  refine ⟨?_, ?_, ?_⟩
  · intro L g cur r rest x xs h
    simp [find_max_filter_range_aux, h]
  · intro L g cur l
    induction l with
    | nil => intro r h; simp [find_max_filter_range_aux] at h
    | cons a rest ih =>
      intro r h
      cases hc : g (cur - 5 - (a : Int) + 1) (cur - 5) with
      | error e =>
        simp only [find_max_filter_range_aux, hc] at h
        obtain ⟨h1, h2⟩ := ih r h
        exact ⟨List.mem_cons_of_mem a h1, h2⟩
      | ok res =>
        cases res with
        | nil =>
          simp only [find_max_filter_range_aux, hc, Except.ok.injEq] at h
          subst h
          exact ⟨List.mem_cons_self a rest, hc⟩
        | cons x xs =>
          simp only [find_max_filter_range_aux, hc] at h
          obtain ⟨h1, h2⟩ := ih r h
          exact ⟨List.mem_cons_of_mem a h1, h2⟩
  · intro L g cur l
    induction l with
    | nil => right; rfl
    | cons a rest ih =>
      cases hc : g (cur - 5 - (a : Int) + 1) (cur - 5) with
      | error e => simpa [find_max_filter_range_aux, hc] using ih
      | ok res =>
        cases res with
        | nil => exact Or.inl ⟨a, by simp [find_max_filter_range_aux, hc]⟩
        | cons x xs => simpa [find_max_filter_range_aux, hc] using ih

/-- Witness for C10: the 10000-range canary succeeds with one unexpected
log and is skipped; calibration lands on 5000, whose canary is empty. -/
theorem calibration_assert_swallowed_witness :
    env_calib (1000000 - 5 - ((10000 : Nat) : Int) + 1) (1000000 - 5) = .ok [7] ∧
    find_max_filter_range_aux env_calib 1000000
        (10000 :: [5000, 2000, 1000, 500, 200, 100, 50, 20, 10, 5, 2, 1]) =
      find_max_filter_range_aux env_calib 1000000
        [5000, 2000, 1000, 500, 200, 100, 50, 20, 10, 5, 2, 1] ∧
    (5000 ∈ FILTER_RANGES_TO_TRY ∧
      env_calib (1000000 - 5 - ((5000 : Nat) : Int) + 1) (1000000 - 5) = .ok []) := by
  refine ⟨by decide, ?_, ?_⟩
  · exact calibration_assert_swallowed.1 Nat env_calib 1000000 10000
      [5000, 2000, 1000, 500, 200, 100, 50, 20, 10, 5, 2, 1] 7 [] (by decide)
  · exact calibration_assert_swallowed.2.1 Nat env_calib 1000000 FILTER_RANGES_TO_TRY 5000
      (by decide)

lemma get_logs_small {L : Type} (ans : Int → Int → List L) (maxR : Nat) (sr : Bool)
    (fuel : Nat) (s : List (Int × Int)) (f t : Int) (hle : t - f + 1 ≤ (maxR : Int)) :
    get_logs (count_env ans) maxR sr (fuel + 1) s f t = (.ok (ans f t), s ++ [(f, t)]) := by
  simp only [get_logs]
  rw [if_neg (by omega)]
  simp [count_env]

lemma split_loop_spec {L : Type} (ans : Int → Int → List L) (maxR : Nat) (sr : Bool)
    (hmr : 1 ≤ maxR) (toB : Int) :
    ∀ (n fuel2 : Nat) (s : List (Int × Int)) (start : Int),
      (toB + 1 - start).toNat ≤ n →
      split_loop (get_logs (count_env ans) maxR sr (fuel2 + 1)) maxR (n + 1) s start toB =
        (.ok ((spec_sub_ranges maxR n start toB).flatMap fun p => ans p.1 p.2),
          s ++ spec_sub_ranges maxR n start toB) := by
  intro n
  induction n with
  | zero =>
    intro fuel2 s start hle
    have hgt : ¬start ≤ toB := by omega
    simp [split_loop, spec_sub_ranges, hgt]
  | succ n ih =>
    intro fuel2 s start hle
    by_cases hst : start ≤ toB
    · have hcall := get_logs_small ans maxR sr fuel2 s start (min (start + (maxR : Int) - 1) toB)
        (by
          have : min (start + (maxR : Int) - 1) toB ≤ start + (maxR : Int) - 1 := min_le_left _ _
          omega)
      rw [split_loop, if_pos hst]
      simp only [hcall]
      have hrec := ih fuel2 (s ++ [(start, min (start + (maxR : Int) - 1) toB)])
        (start + (maxR : Int)) (by omega)
      rw [hrec]
      simp only [spec_sub_ranges, if_pos hst, List.flatMap_cons, List.cons_append,
        List.append_assoc, List.singleton_append, List.nil_append]
    · simp [split_loop, spec_sub_ranges, hst]

/-- C9: a range strictly larger than `maxFilterRange` is pre-split by
`get_logs` into the spec's consecutive sub-ranges of size `maxFilterRange`
(last possibly shorter), queried left to right — the recorded query list is
exactly that partition — and the results are concatenated in sub-range
order; for a 1000-block range with `maxFilterRange = 300` the partition is
exactly the 4 sub-queries of sizes 300, 300, 300, 100, and with per-block
ascending answers the concatenation stays in ascending block order across
sub-query boundaries. -/
theorem get_logs_pre_split :
    (∀ (L : Type) (ans : Int → Int → List L) (sr : Bool) (maxR : Nat)
      (s : List (Int × Int)) (fromB toB : Int),
      1 ≤ maxR → toB - fromB + 1 > (maxR : Int) →
      get_logs (count_env ans) maxR sr ((toB + 1 - fromB).toNat + 2) s fromB toB =
        (.ok ((spec_sub_ranges_of maxR fromB toB).flatMap fun p => ans p.1 p.2),
          s ++ spec_sub_ranges_of maxR fromB toB)) ∧
    spec_sub_ranges_of 300 1 1000 = [(1, 300), (301, 600), (601, 900), (901, 1000)] ∧
    (spec_sub_ranges_of 300 1 1000).map (fun p => p.2 - p.1 + 1) = [300, 300, 300, 100] ∧
    List.Sorted (· ≤ ·) ((spec_sub_ranges_of 300 1 1000).flatMap fun p => [p.1, p.2]) := by
  refine ⟨?_, by decide, by decide, by decide⟩
  intro L ans sr maxR s fromB toB hmr hgt
  have hn := split_loop_spec ans maxR sr hmr toB ((toB + 1 - fromB).toNat)
    ((toB + 1 - fromB).toNat) s fromB (Nat.le_refl _)
  simp only [get_logs]
  rw [if_pos hgt, if_neg (by omega)]
  exact hn

/-- Witness for C9 on a 6-block range with `maxFilterRange = 2` and
boundary-echoing answers. -/
theorem get_logs_pre_split_witness :
    (1 : Nat) ≤ 2 ∧ ((5 : Int) - 0 + 1 > ((2 : Nat) : Int)) ∧
    get_logs (count_env fun f t => [f, t]) 2 true (((5 : Int) + 1 - 0).toNat + 2) [] 0 5 =
      (.ok ((spec_sub_ranges_of 2 0 5).flatMap fun p => [p.1, p.2]),
        [] ++ spec_sub_ranges_of 2 0 5) :=
  ⟨by decide, by decide,
   get_logs_pre_split.1 Int (fun f t => [f, t]) true 2 [] 0 5 (by decide) (by decide)⟩
